import Mathlib

/-!
A shallow embedding of the kdcproxy request-forwarding pipeline from
src/pkg/proxy/proxy.go (package proxy): the KDC-PROXY-MESSAGE envelope codec,
the Kerberos message classifier inside decode, the forwarding orchestrator
(forward), the transport framing (getresponse), the length framing codec
(MarshalKerbLength / UnmarshalKerbLength) and the HTTP handler state machine.

Bytes are modelled as List Nat (each entry a byte value).  External library
calls (the gofork ASN.1 codec and the gokrb5 message parsers) are modelled as
oracle structures, since their behaviour is outside this repository; the code
of proxy.go itself is translated statement by statement.  Go slice expressions
that can panic are modelled by goSliceFrom returning Option, with none marking
the runtime panic, and a GoResult type records ordinary errors separately from
panics.  The Go defer of conn.Close() in getresponse is modelled by the event
trace: every exit path of getresponse emits a single closed event.
-/

namespace Proxy

/-- Byte strings are lists of natural numbers (byte values). -/
abbrev Bytes := List Nat

/-- Result of a Go function call: a normal value, a returned error, or a
runtime panic (which in Go aborts the calling goroutine instead of
returning). -/
inductive GoResult (α : Type) where
  | ok (a : α)
  | err (msg : String)
  | panicked (msg : String)
  deriving DecidableEq, Repr

/-- Go slice expression b[low:]: defined when low ≤ len(b), otherwise a
runtime panic (slice bounds out of range), modelled as none. -/
def goSliceFrom (b : Bytes) (low : Nat) : Option Bytes :=
  if low ≤ b.length then some (b.drop low) else none

/-- MarshalKerbLength from proxy.go: binary.BigEndian.PutUint32 of uint32(n)
into a fresh 4-byte slice.  The Go conversion uint32(n) truncates modulo
2^32. -/
def MarshalKerbLength (n : Nat) : Bytes :=
  [n % 2 ^ 32 / 2 ^ 24 % 256, n % 2 ^ 32 / 2 ^ 16 % 256,
   n % 2 ^ 32 / 2 ^ 8 % 256, n % 2 ^ 32 % 256]

/-- UnmarshalKerbLength from proxy.go: errors when fewer than 4 bytes are
supplied, otherwise decodes the first 4 bytes big-endian via
binary.BigEndian.Uint32 (bytes past the fourth are ignored). -/
def UnmarshalKerbLength : Bytes → Option Nat
  | b0 :: b1 :: b2 :: b3 :: _ =>
      some (b0 * 2 ^ 24 + b1 * 2 ^ 16 + b2 * 2 ^ 8 + b3)
  | _ => none

/-- Helper: decoding the encoding of n recovers n whenever n fits in 32
bits. -/
theorem unmarshal_marshal_kerbLength (n : Nat) (h : n < 2 ^ 32) :
    UnmarshalKerbLength (MarshalKerbLength n) = some n := by
  simp only [MarshalKerbLength, UnmarshalKerbLength, Option.some.injEq]
  omega

/-- Helper: decoding fails on every input shorter than 4 bytes. -/
theorem unmarshal_kerbLength_short (b : Bytes) (h : b.length < 4) :
    UnmarshalKerbLength b = none := by
  match b with
  | [] => rfl
  | [_] => rfl
  | [_, _] => rfl
  | [_, _, _] => rfl
  | _ :: _ :: _ :: _ :: _ => simp at h; omega

/-- KdcProxyMsg from proxy.go: the KDC_PROXY_MESSAGE envelope.  KerbMessage is
the raw Kerberos message including its 4-byte length header, TargetDomain the
realm, DcLocatorHint the optional locator hint (Go zero value 0 when
absent). -/
structure KdcProxyMsg where
  kerbMessage : Bytes
  targetDomain : String
  dcLocatorHint : Int
  deriving DecidableEq, Repr

/-- The request body of a Kerberos KDC request (the part of an AS-REQ or
TGS-REQ that carries the realm), as exposed by the gokrb5 library. -/
structure KDCReqBody where
  realm : String
  deriving DecidableEq, Repr

/-- An AS-REQ as parsed by gokrb5 (only the field read by proxy.go). -/
structure ASReq where
  reqBody : KDCReqBody
  deriving DecidableEq, Repr

/-- A TGS-REQ as parsed by gokrb5 (only the field read by proxy.go). -/
structure TGSReq where
  reqBody : KDCReqBody
  deriving DecidableEq, Repr

/-- A Kerberos ticket (only the realm field is read by proxy.go). -/
structure Ticket where
  realm : String
  deriving DecidableEq, Repr

/-- An AP-REQ as parsed by gokrb5 (only the ticket field is read). -/
structure APReq where
  ticket : Ticket
  deriving DecidableEq, Repr

/-- Oracle for the external libraries proxy.go calls: the gofork ASN.1 codec
and the gokrb5 message parsers.  A parser returning none models the Go call
returning a non-nil error; asn1Unmarshal returning some gives the parsed
message together with the trailing bytes (Go rest). -/
structure KrbLib where
  asn1Unmarshal : Bytes → Option (KdcProxyMsg × Bytes)
  asn1Marshal : KdcProxyMsg → Option Bytes
  unmarshalASReq : Bytes → Option ASReq
  unmarshalTGSReq : Bytes → Option TGSReq
  unmarshalAPReq : Bytes → Option APReq
  unmarshalASRep : Bytes → Bool
  unmarshalTGSRep : Bytes → Bool
  unmarshalAPRep : Bytes → Bool

/-- decode from proxy.go: unmarshal the KDC-PROXY-MESSAGE, reject trailing
data, slice off the 4-byte length header with m.KerbMessage[4:] (a Go slice
expression that panics when the message is shorter than 4 bytes), then try
AS-REQ, TGS-REQ, AP-REQ in that order; the first parser that succeeds
determines the realm of the returned message.  The returned struct literal
sets only KerbMessage and TargetDomain, so DcLocatorHint is the zero value
0. -/
def decode (lib : KrbLib) (data : Bytes) : GoResult KdcProxyMsg :=
  match lib.asn1Unmarshal data with
  | none => .err "asn1 unmarshal failed"
  | some (m, rest) =>
    if rest.length > 0 then .err "trailing data in request"
    else
      match goSliceFrom m.kerbMessage 4 with
      | none => .panicked "runtime error: slice bounds out of range"
      | some inner =>
        match lib.unmarshalASReq inner with
        | some asReq =>
            .ok { kerbMessage := m.kerbMessage,
                  targetDomain := asReq.reqBody.realm, dcLocatorHint := 0 }
        | none =>
          match lib.unmarshalTGSReq inner with
          | some tgsReq =>
              .ok { kerbMessage := m.kerbMessage,
                    targetDomain := tgsReq.reqBody.realm, dcLocatorHint := 0 }
          | none =>
            match lib.unmarshalAPReq inner with
            | some apReq =>
                .ok { kerbMessage := m.kerbMessage,
                      targetDomain := apReq.ticket.realm, dcLocatorHint := 0 }
            | none => .err "message was not valid"

/-- encode from proxy.go: wrap the reply bytes in a KdcProxyMsg with only
KerbMessage set (TargetDomain and DcLocatorHint keep Go zero values) and
ASN.1-marshal it. -/
def encode (lib : KrbLib) (data : Bytes) : GoResult Bytes :=
  match lib.asn1Marshal
      { kerbMessage := data, targetDomain := "", dcLocatorHint := 0 } with
  | none => .err "asn1 marshal failed"
  | some enc => .ok enc

/-- validReply from proxy.go: try AS-REP, TGS-REP, AP-REP; true when any
parses. -/
def validReply (lib : KrbLib) (msg : Bytes) : Bool :=
  if lib.unmarshalASRep msg then true
  else if lib.unmarshalTGSRep msg then true
  else if lib.unmarshalAPRep msg then true
  else false

/-- The two transports proxy.go uses (constants protoUdp, protoTcp). -/
inductive Protocol where
  | udp
  | tcp
  deriving DecidableEq, Repr

/-- Behaviour of one dialed connection: the result of conn.Write (none a
write error, some n the byte count reported), io.ReadAll (UDP read) and
io.ReadFull for a requested byte count (TCP reads). -/
structure ConnBehavior where
  write : Bytes → Option Nat
  readAll : Option Bytes
  readFull : Nat → Option Bytes

/-- io.ReadFull either fails or returns exactly the requested number of
bytes; a faithful connection model satisfies this contract. -/
def ConnBehavior.ReadFullWF (c : ConnBehavior) : Prop :=
  ∀ n bs, c.readFull n = some bs → bs.length = n

/-- Oracle for the network.  krb5Config.GetKDCs returns (count, kdcs, err)
where kdcs is a Go map from int to string, keyed 1..count in the resolver's
preference order; none models a non-nil error.  A Go range loop visits map
entries in an unspecified, deliberately randomized order, so the entry list
recorded here is the order in which this execution's range loop visits the
entries — a choice of the Go runtime, not of the resolver.  The resolver's
own preference order lives only in the keys, which the range loop does not
follow.  net.Dial returning none models a dial error. -/
structure NetOracle where
  getKDCs : String → Bool → Option (Int × List (Int × String))
  dial : Protocol → String → Option ConnBehavior

/-- Observable connection events of one forward call, used to state the
resource discipline and the bytes put on the wire. -/
inductive ConnEvent where
  | dialed (p : Protocol) (addr : String)
  | wrote (p : Protocol) (bytes : Bytes)
  | closed
  deriving DecidableEq, Repr

/-- The branching of getresponse from proxy.go, without the deferred
conn.Close.  UDP: io.ReadAll the datagram, require validReply, return the
buffer with a fresh 4-byte length header (MarshalKerbLength of the received
length).  TCP: io.ReadFull 4 header bytes, UnmarshalKerbLength them, io.ReadFull
that many payload bytes, return header concatenated with payload. -/
def getresponseResult (lib : KrbLib) (conn : ConnBehavior) (proto : Protocol) :
    Option Bytes :=
  match proto with
  | .udp =>
    match conn.readAll with
    | none => none
    | some msg =>
      if validReply lib msg then some (MarshalKerbLength msg.length ++ msg)
      else none
  | .tcp =>
    match conn.readFull 4 with
    | none => none
    | some buf =>
      match UnmarshalKerbLength buf with
      | none => none
      | some len =>
        match conn.readFull len with
        | none => none
        | some msg => some (buf ++ msg)

/-- getresponse from proxy.go.  The defer conn.Close() runs on every return
path, so each call contributes exactly one closed event. -/
def getresponse (lib : KrbLib) (conn : ConnBehavior) (proto : Protocol) :
    Option Bytes × List ConnEvent :=
  (getresponseResult lib conn proto, [ConnEvent.closed])

/-- The protocol preference list computed at the top of forward: [udp, tcp]
by default, collapsed to [tcp] when len(msg.KerbMessage)-4 (Go int
arithmetic) exceeds LibDefaults.UDPPreferenceLimit. -/
def forwardProtocols (kerbLen : Nat) (udpLimit : Int) : List Protocol :=
  if (kerbLen : Int) - 4 > udpLimit then [Protocol.tcp]
  else [Protocol.udp, Protocol.tcp]

/-- The inner loop of forward (for _, kdc := range kdcs) over the resolver
map of one protocol.  The loop ranges over the map entries in the iteration
order this execution was given, binding only the value kdc.2 (the key is
discarded by the Go blank identifier).  Returns some when the loop body
executed a return (a successful reply, or a panic from the UDP slice
expression msg.KerbMessage[4:]), none when the entries were exhausted,
together with the connection events in order.  A failed dial contributes no
event (no connection exists); a write error or short write closes
explicitly; otherwise getresponse closes via its defer. -/
def tryKdcs (lib : KrbLib) (net : NetOracle) (proto : Protocol) (kerb : Bytes) :
    List (Int × String) → Option (GoResult Bytes) × List ConnEvent
  | [] => (none, [])
  | kdc :: rest =>
    match net.dial proto kdc.2 with
    | none => tryKdcs lib net proto kerb rest
    | some conn =>
      match (if proto = Protocol.udp then goSliceFrom kerb 4 else some kerb) with
      | none =>
          (some (.panicked "runtime error: slice bounds out of range"),
           [ConnEvent.dialed proto kdc.2])
      | some req =>
        match conn.write req with
        | none =>
          let r := tryKdcs lib net proto kerb rest
          (r.1, ConnEvent.dialed proto kdc.2 :: ConnEvent.wrote proto req ::
                ConnEvent.closed :: r.2)
        | some n =>
          if n ≠ req.length then
            let r := tryKdcs lib net proto kerb rest
            (r.1, ConnEvent.dialed proto kdc.2 :: ConnEvent.wrote proto req ::
                  ConnEvent.closed :: r.2)
          else
            match getresponse lib conn proto with
            | (none, gevs) =>
              let r := tryKdcs lib net proto kerb rest
              (r.1, ConnEvent.dialed proto kdc.2 ::
                    ConnEvent.wrote proto req :: (gevs ++ r.2))
            | (some resp, gevs) =>
              (some (.ok resp),
               ConnEvent.dialed proto kdc.2 ::
                 ConnEvent.wrote proto req :: gevs)

/-- The outer loop of forward over the protocol preference list.  GetKDCs
errors and counts below 1 skip to the next protocol (continue in the Go
loop). -/
def tryProtocols (lib : KrbLib) (net : NetOracle) (realm : String)
    (kerb : Bytes) : List Protocol → Option (GoResult Bytes) × List ConnEvent
  | [] => (none, [])
  | proto :: ps =>
    match net.getKDCs realm (proto = Protocol.tcp) with
    | none => tryProtocols lib net realm kerb ps
    | some (c, kdcs) =>
      if c < 1 then tryProtocols lib net realm kerb ps
      else
        match tryKdcs lib net proto kerb kdcs with
        | (some r, evs) => (some r, evs)
        | (none, evs) =>
          let r := tryProtocols lib net realm kerb ps
          (r.1, evs ++ r.2)

/-- forward from proxy.go: compute the protocol preference list, run the two
nested loops, and return the Go error no kdcs found for realm when every
candidate was exhausted. -/
def forward (lib : KrbLib) (net : NetOracle) (udpLimit : Int)
    (msg : KdcProxyMsg) : GoResult Bytes × List ConnEvent :=
  match tryProtocols lib net msg.targetDomain msg.kerbMessage
      (forwardProtocols msg.kerbMessage.length udpLimit) with
  | (some r, evs) => (r, evs)
  | (none, evs) =>
      (.err ("no kdcs found for realm " ++ msg.targetDomain), evs)

/-- maxLength from proxy.go: 128 * 1024 bytes. -/
def maxLength : Nat := 128 * 1024

/-- The parts of an inbound HTTP request the Handler reads: the method, the
declared ContentLength (-1 when unknown, as in net/http), and the outcome of
io.ReadAll on the body (none a read error). -/
structure HttpRequest where
  method : String
  contentLength : Int
  body : Option Bytes
  deriving Repr

/-- What the Handler produces: an error response with a status code via
http.Error, a 200 response carrying the encoded reply, or a propagated Go
panic (in which case the Handler writes no response at all). -/
inductive HandlerResult where
  | errorResp (status : Nat)
  | okResp (body : Bytes)
  | panicked (msg : String)
  deriving DecidableEq, Repr

/-- Handler from proxy.go, gate by gate in source order: method check (405),
unknown length (411), oversize (413), body read (500), rate limiter (429,
the limiter.Allow() outcome passed as allow), decode (400), empty realm
(400), forward (503), encode (500), then the 200 reply.  Each http.Error
returns immediately, so the first failing gate is terminal. -/
def Handler (lib : KrbLib) (net : NetOracle) (udpLimit : Int) (allow : Bool)
    (r : HttpRequest) : HandlerResult :=
  if r.method ≠ "POST" then .errorResp 405
  else if r.contentLength = -1 then .errorResp 411
  else if r.contentLength > (maxLength : Int) then .errorResp 413
  else
    match r.body with
    | none => .errorResp 500
    | some data =>
      if ¬ allow then .errorResp 429
      else
        match decode lib data with
        | .panicked m => .panicked m
        | .err _ => .errorResp 400
        | .ok msg =>
          if msg.targetDomain = "" then .errorResp 400
          else
            match (forward lib net udpLimit msg).1 with
            | .panicked m => .panicked m
            | .err _ => .errorResp 503
            | .ok resp =>
              match encode lib resp with
              | .panicked m => .panicked m
              | .err _ => .errorResp 500
              | .ok reply => .okResp reply

/-! Spec-side definitions.  These follow the wording of the specification
(sections 4.3, 4.4 and 4.6) and exist to be compared against the embedded
code; they are not translations of proxy.go. -/

/-- The address sequence one realm and protocol contribute: the values of
the resolver map in the order this execution's range loop visits its
entries (a GetKDCs error or a count below 1 yields the empty sequence).
Note this is the randomized map-iteration order, not the resolver's key
(preference) order from spec 4.4. -/
def resolvedAddrs (net : NetOracle) (realm : String) (proto : Protocol) :
    List String :=
  match net.getKDCs realm (proto = Protocol.tcp) with
  | none => []
  | some (c, kdcs) => if c < 1 then [] else kdcs.map Prod.snd

/-- The full (protocol, address) cross product in attempt order: protocols
in preference order, addresses in the map-iteration order of this
execution. -/
def candidatesSpec (net : NetOracle) (realm : String)
    (protos : List Protocol) : List (Protocol × String) :=
  protos.flatMap fun p => (resolvedAddrs net realm p).map fun a => (p, a)

/-- Spec 4.5: the outcome of one forwarding attempt at a (protocol, address)
candidate — some reply on success, none on any dial, write, short-write or
read failure. -/
def attemptSpec (lib : KrbLib) (net : NetOracle) (kerb : Bytes)
    (pc : Protocol × String) : Option Bytes :=
  match net.dial pc.1 pc.2 with
  | none => none
  | some conn =>
    let req := if pc.1 = Protocol.udp then kerb.drop 4 else kerb
    match conn.write req with
    | none => none
    | some n =>
      if n ≠ req.length then none
      else getresponseResult lib conn pc.1

/-- Spec 4.3: strip the leading 4-byte length header, then try AS-REQ,
TGS-REQ, AP-REQ in this fixed order; the first successful parse yields the
realm (request-body realm for AS-REQ and TGS-REQ, ticket realm for AP-REQ);
none parsing yields no realm. -/
def classifySpec (lib : KrbLib) (kerb : Bytes) : Option String :=
  let inner := kerb.drop 4
  match lib.unmarshalASReq inner with
  | some asReq => some asReq.reqBody.realm
  | none =>
    match lib.unmarshalTGSReq inner with
    | some tgsReq => some tgsReq.reqBody.realm
    | none =>
      match lib.unmarshalAPReq inner with
      | some apReq => some apReq.ticket.realm
      | none => none

/-- Single-connection discipline over an event trace: at most one connection
exists at a time, writes happen only on the currently dialed connection, and
every dialed connection is closed before the next dial and before the trace
ends.  The boolean argument records whether a connection is currently
open. -/
def closeDiscipline : Bool → List ConnEvent → Bool
  | isOpen, [] => !isOpen
  | false, ConnEvent.dialed _ _ :: rest => closeDiscipline true rest
  | true, ConnEvent.closed :: rest => closeDiscipline false rest
  | true, ConnEvent.wrote _ _ :: rest => closeDiscipline true rest
  | _, _ => false

/-- Is an event a dial? -/
def isDialed : ConnEvent → Bool
  | ConnEvent.dialed _ _ => true
  | _ => false

/-- Is an event a close? -/
def isClosed : ConnEvent → Bool
  | ConnEvent.closed => true
  | _ => false

/-! Concrete fixtures for closed evaluations: a DER envelope carrying an
empty kerb-message octet string, a small sample Kerberos message, and simple
library and network oracles.  The byte string [48, 4, 160, 2, 4, 0] is the
DER encoding of SEQUENCE containing a [0] EXPLICIT empty OCTET STRING, which
the gofork ASN.1 codec parses into KdcProxyMsg with a zero-length KerbMessage
and no trailing bytes. -/

/-- The DER envelope whose kerb-message octet string is empty. -/
def demoEnvelope : Bytes := [48, 4, 160, 2, 4, 0]

/-- A sample Kerberos message: 4-byte length header (value 2) plus two
payload bytes. -/
def sampleKerb : Bytes := [0, 0, 0, 2, 9, 9]

/-- A concrete library oracle.  Input [1] parses as an envelope carrying
sampleKerb with no client realm or hint; input [2] parses as the same
Kerberos message but with a client-supplied target domain and locator hint
5; demoEnvelope parses as an envelope with an empty kerb-message.  The AS-REQ
parser accepts exactly the payload of sampleKerb and reports realm
EXAMPLE.COM. -/
def libSample : KrbLib where
  asn1Unmarshal := fun data =>
    if data = [1] then
      some ({ kerbMessage := sampleKerb, targetDomain := "",
              dcLocatorHint := 0 }, [])
    else if data = [2] then
      some ({ kerbMessage := sampleKerb, targetDomain := "CLIENT.SUPPLIED",
              dcLocatorHint := 5 }, [])
    else if data = demoEnvelope then
      some ({ kerbMessage := [], targetDomain := "", dcLocatorHint := 0 }, [])
    else none
  asn1Marshal := fun _ => none
  unmarshalASReq := fun bs =>
    if bs = [9, 9] then some { reqBody := { realm := "EXAMPLE.COM" } }
    else none
  unmarshalTGSReq := fun _ => none
  unmarshalAPReq := fun _ => none
  unmarshalASRep := fun _ => false
  unmarshalTGSRep := fun _ => false
  unmarshalAPRep := fun _ => false

/-- A sample decoded message targeting realm EXAMPLE.COM. -/
def sampleMsg : KdcProxyMsg :=
  { kerbMessage := sampleKerb, targetDomain := "EXAMPLE.COM",
    dcLocatorHint := 0 }

/-- A network oracle on which resolution always errors. -/
def netNone : NetOracle where
  getKDCs := fun _ _ => none
  dial := fun _ _ => none

/-- libSample with reply parsers that accept every buffer, so UDP replies
pass validReply. -/
def libReply : KrbLib :=
  { libSample with unmarshalASRep := fun _ => true }

/-- A UDP connection answering the single-byte datagram [5]. -/
def connA : ConnBehavior where
  write := fun bs => some bs.length
  readAll := some [5]
  readFull := fun _ => none

/-- A UDP connection answering the single-byte datagram [6]. -/
def connB : ConnBehavior where
  write := fun bs => some bs.length
  readAll := some [6]
  readFull := fun _ => none

/-- A network whose resolver map holds kdcA under key 1 (first in the
resolver's preference order) and kdcB under key 2, while this execution's
range loop happens to visit the key-2 entry first — a legal Go map
iteration order.  Both addresses dial successfully over UDP. -/
def netMapOrder : NetOracle where
  getKDCs := fun _ isTcp =>
    if isTcp then none else some (2, [(2, "kdcB"), (1, "kdcA")])
  dial := fun p a =>
    if p = Protocol.udp then
      if a = "kdcA" then some connA
      else if a = "kdcB" then some connB
      else none
    else none

/-- A concrete connection behaviour satisfying the io.ReadFull contract:
full writes, a 2-byte UDP datagram, and TCP reads serving a 4-byte header
announcing 1 payload byte. -/
def connSample : ConnBehavior where
  write := fun bs => some bs.length
  readAll := some [7, 7]
  readFull := fun n =>
    if n = 4 then some [0, 0, 0, 1] else if n = 1 then some [8] else none

/-! Claim theorems. -/

/-- C9: length framing round-trip — for every n below 2^32, decoding the
4-byte big-endian encoding of n yields n, and decoding fails for every input
shorter than 4 bytes. -/
theorem kerbLength_roundtrip_and_short :
    (∀ n : Nat, n < 2 ^ 32 →
        UnmarshalKerbLength (MarshalKerbLength n) = some n) ∧
    (∀ b : Bytes, b.length < 4 → UnmarshalKerbLength b = none) :=
  ⟨unmarshal_marshal_kerbLength, unmarshal_kerbLength_short⟩

/-- Witness for C9 at n = 257 and the 3-byte input [0, 0, 0]. -/
theorem kerbLength_roundtrip_and_short_witness :
    UnmarshalKerbLength (MarshalKerbLength 257) = some 257 ∧
    UnmarshalKerbLength [0, 0, 0] = none :=
  ⟨kerbLength_roundtrip_and_short.1 257 (by norm_num),
   kerbLength_roundtrip_and_short.2 [0, 0, 0] (by decide)⟩

/-- C6: the protocol preference list is [udp, tcp] whenever the payload
length excluding the 4-byte header (message length n + 4) is at most the
UDP preference limit, and collapses to [tcp] exactly when it exceeds the
limit — the threshold is exclusive. -/
theorem forward_protocol_selection (limit : Int) (n : Nat) :
    ((n : Int) ≤ limit →
        forwardProtocols (n + 4) limit = [Protocol.udp, Protocol.tcp]) ∧
    ((n : Int) > limit → forwardProtocols (n + 4) limit = [Protocol.tcp]) := by
  constructor <;> intro h <;> unfold forwardProtocols <;> split_ifs with hc
  all_goals first
    | rfl
    | (exfalso; push_cast at hc; omega)

/-- Witness for C6: with limit 10, a 10-byte payload keeps [udp, tcp] and an
11-byte payload collapses to [tcp]. -/
theorem forward_protocol_selection_witness :
    forwardProtocols 14 10 = [Protocol.udp, Protocol.tcp] ∧
    forwardProtocols 15 10 = [Protocol.tcp] :=
  ⟨(forward_protocol_selection 10 10).1 (by norm_num),
   (forward_protocol_selection 10 11).2 (by norm_num)⟩

/-- C2: contrary to the claim, decode does not return an error on a
schema-valid envelope whose kerb-message octet string is shorter than 4
bytes — the slice expression m.KerbMessage[4:] panics. -/
theorem decode_short_kerb_panics (lib : KrbLib) (data : Bytes)
    (m : KdcProxyMsg) (rest : Bytes)
    (h1 : lib.asn1Unmarshal data = some (m, rest)) (h2 : rest.length = 0)
    (h3 : m.kerbMessage.length < 4) :
    decode lib data = .panicked "runtime error: slice bounds out of range" := by
  simp only [decode, h1]
  rw [if_neg (by omega)]
  unfold goSliceFrom
  rw [if_neg (by omega)]

/-- Witness for C2: the concrete DER envelope with an empty kerb-message
makes decode panic. -/
theorem decode_short_kerb_panics_witness :
    decode libSample demoEnvelope =
      .panicked "runtime error: slice bounds out of range" :=
  decode_short_kerb_panics libSample demoEnvelope
    { kerbMessage := [], targetDomain := "", dcLocatorHint := 0 } []
    (by decide) (by decide) (by decide)

/-- C1: contrary to the claim that every inbound request receives one of the
specified status codes, a POST with valid length whose body is a schema-valid
envelope carrying an empty kerb-message drives the Handler into a panic (the
slice in decode), so no status is returned at all. -/
theorem handler_panics_on_short_kerb :
    Handler libSample netNone 1232 true
      { method := "POST", contentLength := 6, body := some demoEnvelope } =
      .panicked "runtime error: slice bounds out of range" := by
  decide

/-- C7 counterexample: an envelope whose dc-locator-hint is 5 decodes to a
message whose dcLocatorHint is 0 — the hint is not passed through. -/
theorem decode_locator_hint_dropped_cex :
    libSample.asn1Unmarshal [2] =
      some ({ kerbMessage := sampleKerb, targetDomain := "CLIENT.SUPPLIED",
              dcLocatorHint := 5 }, []) ∧
    decode libSample [2] =
      .ok { kerbMessage := sampleKerb, targetDomain := "EXAMPLE.COM",
            dcLocatorHint := 0 } ∧
    (0 : Int) ≠ 5 := by
  decide

/-- C7 amended: dc-locator-hint is never interpreted by the pipeline, but it
is not passed through either — every successfully decoded message carries
dcLocatorHint 0 regardless of the client value, and forward is insensitive to
the field. -/
theorem decode_locator_hint_zero_and_unread :
    (∀ (lib : KrbLib) (data : Bytes) (m : KdcProxyMsg),
        decode lib data = .ok m → m.dcLocatorHint = 0) ∧
    (∀ (lib : KrbLib) (net : NetOracle) (limit : Int) (k : Bytes)
        (d : String) (h1 h2 : Int),
        forward lib net limit
            { kerbMessage := k, targetDomain := d, dcLocatorHint := h1 } =
          forward lib net limit
            { kerbMessage := k, targetDomain := d, dcLocatorHint := h2 }) := by
  constructor
  · intro lib data m h
    unfold decode at h
    repeat' split at h
    all_goals first
      | exact GoResult.noConfusion h
      | (cases h; rfl)
  · intro lib net limit k d h1 h2
    rfl

/-- Witness for the amended C7 at the concrete decodable input [1]. -/
theorem decode_locator_hint_zero_and_unread_witness :
    (KdcProxyMsg.mk sampleKerb "EXAMPLE.COM" 0).dcLocatorHint = 0 :=
  decode_locator_hint_zero_and_unread.1 libSample [1]
    (KdcProxyMsg.mk sampleKerb "EXAMPLE.COM" 0) (by decide)

/-- C10: two envelopes that parse to the same kerb-message (with arbitrary,
possibly different target-domain and dc-locator-hint contents) decode
identically — the realm is always re-derived from the Kerberos message and
classification is never skipped. -/
theorem decode_ignores_envelope_realm_and_hint
    (lib : KrbLib) (d1 d2 : Bytes) (m1 m2 : KdcProxyMsg)
    (hu1 : lib.asn1Unmarshal d1 = some (m1, []))
    (hu2 : lib.asn1Unmarshal d2 = some (m2, []))
    (hk : m1.kerbMessage = m2.kerbMessage) :
    decode lib d1 = decode lib d2 := by
  simp [decode, hu1, hu2, hk]

/-- Witness for C10: the inputs [1] and [2] differ in target-domain and
hint but carry the same kerb-message, and decode agrees on them. -/
theorem decode_ignores_envelope_realm_and_hint_witness :
    decode libSample [1] = decode libSample [2] :=
  decode_ignores_envelope_realm_and_hint libSample [1] [2]
    ⟨sampleKerb, "", 0⟩ ⟨sampleKerb, "CLIENT.SUPPLIED", 5⟩
    (by decide) (by decide) (by decide)

/-- C4: for an envelope that parses with no trailing bytes and a kerb-message
of at least 4 bytes, decode strips the 4-byte header and classifies in the
fixed order AS-REQ, TGS-REQ, AP-REQ; the first successful parse gives the
realm of the result, and if none parse decode fails with the message was not
valid error. -/
theorem decode_classification_order
    (lib : KrbLib) (data : Bytes) (m : KdcProxyMsg)
    (hu : lib.asn1Unmarshal data = some (m, []))
    (h4 : 4 ≤ m.kerbMessage.length) :
    decode lib data =
      match classifySpec lib m.kerbMessage with
      | some realm =>
          .ok { kerbMessage := m.kerbMessage, targetDomain := realm,
                dcLocatorHint := 0 }
      | none => .err "message was not valid" := by
  have hs : goSliceFrom m.kerbMessage 4 = some (m.kerbMessage.drop 4) := by
    simp [goSliceFrom, h4]
  cases ha : lib.unmarshalASReq (m.kerbMessage.drop 4) with
  | some a => simp [decode, hu, hs, classifySpec, ha]
  | none =>
    cases ht : lib.unmarshalTGSReq (m.kerbMessage.drop 4) with
    | some t => simp [decode, hu, hs, classifySpec, ha, ht]
    | none =>
      cases hap : lib.unmarshalAPReq (m.kerbMessage.drop 4) with
      | some ap => simp [decode, hu, hs, classifySpec, ha, ht, hap]
      | none => simp [decode, hu, hs, classifySpec, ha, ht, hap]

/-- Witness for C4 at the concrete decodable input [1]. -/
theorem decode_classification_order_witness :
    decode libSample [1] =
      match classifySpec libSample sampleKerb with
      | some realm =>
          .ok { kerbMessage := sampleKerb, targetDomain := realm,
                dcLocatorHint := 0 }
      | none => .err "message was not valid" :=
  decode_classification_order libSample [1] ⟨sampleKerb, "", 0⟩
    (by decide) (by decide)

/-! Helper lemmas about List.findSome? used by the orchestrator
refinement. -/

/-- findSome? over an appended list searches the first part first. -/
theorem findSomeAppend {α β : Type} (f : α → Option β) (l1 l2 : List α) :
    List.findSome? f (l1 ++ l2) =
      match List.findSome? f l1 with
      | some b => some b
      | none => List.findSome? f l2 := by
  induction l1 with
  | nil => simp [List.findSome?]
  | cons a t ih =>
    simp only [List.cons_append, List.findSome?]
    cases f a <;> simp [ih]

/-- findSome? over a mapped list is findSome? of the composition. -/
theorem findSomeMap {α β γ : Type} (g : α → β) (f : β → Option γ)
    (l : List α) :
    List.findSome? f (l.map g) = List.findSome? (fun a => f (g a)) l := by
  induction l with
  | nil => rfl
  | cons a t ih =>
    simp only [List.map_cons, List.findSome?]
    cases f (g a) <;> simp [ih]

/-- findSome? yields none exactly when f fails on every element. -/
theorem findSomeEqNone {α β : Type} (f : α → Option β) (l : List α) :
    List.findSome? f l = none ↔ ∀ a ∈ l, f a = none := by
  induction l with
  | nil => simp [List.findSome?]
  | cons a t ih =>
    simp only [List.findSome?]
    cases hf : f a with
    | some b =>
      constructor
      · intro h; exact absurd h (by simp)
      · intro h; exact absurd (h a (by simp)) (by simp [hf])
    | none => simp [List.forall_mem_cons, hf, ih]

/-- The inner KDC loop returns exactly the first successful attempt over the
map entries, in the iteration order given, wrapped as a Go return value. -/
theorem tryKdcs_fst (lib : KrbLib) (net : NetOracle) (proto : Protocol)
    (kerb : Bytes) (h4 : 4 ≤ kerb.length) (kdcs : List (Int × String)) :
    (tryKdcs lib net proto kerb kdcs).1 =
      (List.findSome? (fun e => attemptSpec lib net kerb (proto, e.2))
        kdcs).map GoResult.ok := by
  induction kdcs with
  | nil => rfl
  | cons kdc rest ih =>
    have hreq : (if proto = Protocol.udp then goSliceFrom kerb 4
          else some kerb)
        = some (if proto = Protocol.udp then kerb.drop 4 else kerb) := by
      cases proto <;> simp [goSliceFrom, h4]
    cases hd : net.dial proto kdc.2 with
    | none => simp [tryKdcs, List.findSome?, attemptSpec, hd, ih]
    | some conn =>
      cases hw : conn.write
          (if proto = Protocol.udp then kerb.drop 4 else kerb) with
      | none =>
        simp [tryKdcs, List.findSome?, attemptSpec, hd, hreq, hw, ih]
      | some n =>
        by_cases hn :
            n = (if proto = Protocol.udp then kerb.drop 4 else kerb).length
        · cases hg : getresponseResult lib conn proto with
          | none =>
            simp [tryKdcs, List.findSome?, attemptSpec, hd, hreq, hw, hn,
              getresponse, hg, ih]
          | some resp =>
            simp [tryKdcs, List.findSome?, attemptSpec, hd, hreq, hw, hn,
              getresponse, hg]
        · simp [tryKdcs, List.findSome?, attemptSpec, hd, hreq, hw, hn, ih]

/-- The outer protocol loop returns exactly the first successful attempt over
the full (protocol, address) cross product in preference order. -/
theorem tryProtocols_fst (lib : KrbLib) (net : NetOracle) (realm : String)
    (kerb : Bytes) (h4 : 4 ≤ kerb.length) (ps : List Protocol) :
    (tryProtocols lib net realm kerb ps).1 =
      (List.findSome? (attemptSpec lib net kerb)
        (candidatesSpec net realm ps)).map GoResult.ok := by
  induction ps with
  | nil => rfl
  | cons proto ps ih =>
    have hcand : candidatesSpec net realm (proto :: ps) =
        ((resolvedAddrs net realm proto).map fun a => (proto, a)) ++
          candidatesSpec net realm ps := by
      simp [candidatesSpec]
    cases hg : net.getKDCs realm (proto = Protocol.tcp) with
    | none =>
      have hra : resolvedAddrs net realm proto = [] := by
        simp [resolvedAddrs, hg]
      simp [tryProtocols, hg, hcand, hra, ih]
    | some ck =>
      obtain ⟨c, kdcs⟩ := ck
      have hra : resolvedAddrs net realm proto =
          if c < 1 then [] else kdcs.map Prod.snd := by
        simp [resolvedAddrs, hg]
      by_cases hc : c < 1
      · simp [tryProtocols, hg, hcand, hra, hc, ih]
      · have h1 := tryKdcs_fst lib net proto kerb h4 kdcs
        rcases htk : tryKdcs lib net proto kerb kdcs with ⟨r?, evs⟩
        rw [htk] at h1
        simp only at h1
        cases r? with
        | some r =>
          rcases hx : List.findSome?
              (fun e => attemptSpec lib net kerb (proto, e.2)) kdcs
            with _ | resp
          · rw [hx] at h1; simp at h1
          · rw [hx] at h1; simp at h1
            subst h1
            simp [tryProtocols, hg, hc, htk, hcand, hra, findSomeAppend,
              findSomeMap, hx]
        | none =>
          rcases hx : List.findSome?
              (fun e => attemptSpec lib net kerb (proto, e.2)) kdcs
            with _ | resp
          · simp [tryProtocols, hg, hc, htk, hcand, hra, findSomeAppend,
              findSomeMap, hx, ih]
          · rw [hx] at h1; simp at h1

/-- C3 (amended): forward tries protocols in preference order and, within a
protocol, every entry of the resolver map exactly once — but in the
range-loop iteration order of this execution, which Go randomizes, not in
the resolver's key (preference) order.  The first successful attempt across
the full cross product wins, per-attempt failures are swallowed, a resolver
error or zero count contributes no candidates, and the no-kdcs-found error
is returned exactly when every candidate has failed. -/
theorem forward_first_success (lib : KrbLib) (net : NetOracle) (limit : Int)
    (msg : KdcProxyMsg) (h4 : 4 ≤ msg.kerbMessage.length) :
    ((forward lib net limit msg).1 =
      match List.findSome? (attemptSpec lib net msg.kerbMessage)
          (candidatesSpec net msg.targetDomain
            (forwardProtocols msg.kerbMessage.length limit)) with
      | some resp => GoResult.ok resp
      | none => GoResult.err ("no kdcs found for realm " ++ msg.targetDomain))
    ∧ ((forward lib net limit msg).1 =
          GoResult.err ("no kdcs found for realm " ++ msg.targetDomain) ↔
        ∀ pc ∈ candidatesSpec net msg.targetDomain
            (forwardProtocols msg.kerbMessage.length limit),
          attemptSpec lib net msg.kerbMessage pc = none) := by
  have h1 := tryProtocols_fst lib net msg.targetDomain msg.kerbMessage h4
    (forwardProtocols msg.kerbMessage.length limit)
  have hmain : (forward lib net limit msg).1 =
      match List.findSome? (attemptSpec lib net msg.kerbMessage)
          (candidatesSpec net msg.targetDomain
            (forwardProtocols msg.kerbMessage.length limit)) with
      | some resp => GoResult.ok resp
      | none =>
          GoResult.err ("no kdcs found for realm " ++ msg.targetDomain) := by
    unfold forward
    rcases htp : tryProtocols lib net msg.targetDomain msg.kerbMessage
        (forwardProtocols msg.kerbMessage.length limit) with ⟨r?, evs⟩
    rw [htp] at h1
    simp only at h1
    cases r? with
    | some r =>
      rcases hx : List.findSome? (attemptSpec lib net msg.kerbMessage)
          (candidatesSpec net msg.targetDomain
            (forwardProtocols msg.kerbMessage.length limit))
        with _ | resp
      · rw [hx] at h1; simp at h1
      · rw [hx] at h1; simp at h1
        subst h1
        simp [hx]
    | none =>
      rcases hx : List.findSome? (attemptSpec lib net msg.kerbMessage)
          (candidatesSpec net msg.targetDomain
            (forwardProtocols msg.kerbMessage.length limit))
        with _ | resp
      · simp [hx]
      · rw [hx] at h1; simp at h1
  refine ⟨hmain, ?_⟩
  rw [hmain]
  rcases hx : List.findSome? (attemptSpec lib net msg.kerbMessage)
      (candidatesSpec net msg.targetDomain
        (forwardProtocols msg.kerbMessage.length limit))
    with _ | resp
  · simp only []
    constructor
    · intro _
      exact (findSomeEqNone _ _).mp hx
    · intro _; trivial
  · simp only []
    constructor
    · intro h; exact GoResult.noConfusion h
    · intro h
      rw [(findSomeEqNone _ _).mpr h] at hx
      cases hx

/-- Witness for C3 at a concrete message and a network on which resolution
always fails. -/
theorem forward_first_success_witness :
    ((forward libSample netNone 1232 sampleMsg).1 =
      match List.findSome? (attemptSpec libSample netNone sampleMsg.kerbMessage)
          (candidatesSpec netNone sampleMsg.targetDomain
            (forwardProtocols sampleMsg.kerbMessage.length 1232)) with
      | some resp => GoResult.ok resp
      | none =>
          GoResult.err ("no kdcs found for realm " ++ sampleMsg.targetDomain))
    ∧ ((forward libSample netNone 1232 sampleMsg).1 =
          GoResult.err ("no kdcs found for realm " ++ sampleMsg.targetDomain) ↔
        ∀ pc ∈ candidatesSpec netNone sampleMsg.targetDomain
            (forwardProtocols sampleMsg.kerbMessage.length 1232),
          attemptSpec libSample netNone sampleMsg.kerbMessage pc = none) :=
  forward_first_success libSample netNone 1232 sampleMsg (by decide)

/-- C3 counterexample to the original ordering claim: the resolver map keys
kdcA as 1 — first in the resolver's preference order — and kdcB as 2, and
the attempt at kdcA succeeds with the reply [0, 0, 0, 1, 5]; yet under the
legal Go map-iteration order that visits the key-2 entry first, forward
returns kdcB's reply [0, 0, 0, 1, 6].  Addresses are therefore not tried in
the exact order the resolver returned them. -/
theorem forward_map_order_cex :
    netMapOrder.getKDCs "EXAMPLE.COM" false =
      some (2, [(2, "kdcB"), (1, "kdcA")]) ∧
    attemptSpec libReply netMapOrder sampleMsg.kerbMessage
      (Protocol.udp, "kdcA") = some [0, 0, 0, 1, 5] ∧
    (forward libReply netMapOrder 1232 sampleMsg).1 =
      GoResult.ok [0, 0, 0, 1, 6] ∧
    ([0, 0, 0, 1, 6] : Bytes) ≠ [0, 0, 0, 1, 5] := by
  decide

/-! Helper lemmas for the connection close discipline. -/

/-- Discipline is preserved by concatenation of disciplined traces. -/
theorem closeDiscipline_append :
    ∀ (a b : List ConnEvent) (s : Bool), closeDiscipline s a = true →
      closeDiscipline false b = true → closeDiscipline s (a ++ b) = true := by
  intro a
  induction a with
  | nil =>
    intro b s h1 h2
    cases s with
    | false => simpa using h2
    | true => simp [closeDiscipline] at h1
  | cons e rest ih =>
    intro b s h1 h2
    cases e with
    | dialed p addr =>
      cases s with
      | false =>
        simp only [List.cons_append, closeDiscipline] at h1 ⊢
        exact ih b true h1 h2
      | true => simp [closeDiscipline] at h1
    | wrote p bs =>
      cases s with
      | false => simp [closeDiscipline] at h1
      | true =>
        simp only [List.cons_append, closeDiscipline] at h1 ⊢
        exact ih b true h1 h2
    | closed =>
      cases s with
      | false => simp [closeDiscipline] at h1
      | true =>
        simp only [List.cons_append, closeDiscipline] at h1 ⊢
        exact ih b false h1 h2

/-- A disciplined trace balances dials against closes (one extra close when a
connection was already open at the start). -/
theorem closeDiscipline_count :
    ∀ (t : List ConnEvent) (s : Bool), closeDiscipline s t = true →
      t.countP isDialed + (if s then 1 else 0) = t.countP isClosed := by
  intro t
  induction t with
  | nil =>
    intro s h
    cases s with
    | false => rfl
    | true => simp [closeDiscipline] at h
  | cons e rest ih =>
    intro s h
    cases e with
    | dialed p addr =>
      cases s with
      | false =>
        simp only [closeDiscipline] at h
        have := ih true h
        simp only [List.countP_cons, isDialed, isClosed] at *
        omega
      | true => simp [closeDiscipline] at h
    | wrote p bs =>
      cases s with
      | false => simp [closeDiscipline] at h
      | true =>
        simp only [closeDiscipline] at h
        have := ih true h
        simp only [List.countP_cons, isDialed, isClosed] at *
        omega
    | closed =>
      cases s with
      | false => simp [closeDiscipline] at h
      | true =>
        simp only [closeDiscipline] at h
        have := ih false h
        simp only [List.countP_cons, isDialed, isClosed] at *
        omega

/-- Every trace of the inner KDC loop is disciplined (given a kerb message of
at least 4 bytes, so the UDP slice cannot panic and leak the connection). -/
theorem tryKdcs_closes (lib : KrbLib) (net : NetOracle) (proto : Protocol)
    (kerb : Bytes) (h4 : 4 ≤ kerb.length) (kdcs : List (Int × String)) :
    closeDiscipline false (tryKdcs lib net proto kerb kdcs).2 = true := by
  induction kdcs with
  | nil => rfl
  | cons kdc rest ih =>
    have hreq : (if proto = Protocol.udp then goSliceFrom kerb 4
          else some kerb)
        = some (if proto = Protocol.udp then kerb.drop 4 else kerb) := by
      cases proto <;> simp [goSliceFrom, h4]
    cases hd : net.dial proto kdc.2 with
    | none => simp [tryKdcs, hd, ih]
    | some conn =>
      cases hw : conn.write
          (if proto = Protocol.udp then kerb.drop 4 else kerb) with
      | none => simp [tryKdcs, hd, hreq, hw, closeDiscipline, ih]
      | some n =>
        by_cases hn :
            n = (if proto = Protocol.udp then kerb.drop 4 else kerb).length
        · cases hg : getresponseResult lib conn proto with
          | none =>
            simp [tryKdcs, hd, hreq, hw, hn, getresponse, hg,
              closeDiscipline, ih]
          | some resp =>
            simp [tryKdcs, hd, hreq, hw, hn, getresponse, hg,
              closeDiscipline]
        · simp [tryKdcs, hd, hreq, hw, hn, closeDiscipline, ih]

/-- Every trace of the outer protocol loop is disciplined. -/
theorem tryProtocols_closes (lib : KrbLib) (net : NetOracle) (realm : String)
    (kerb : Bytes) (h4 : 4 ≤ kerb.length) (ps : List Protocol) :
    closeDiscipline false (tryProtocols lib net realm kerb ps).2 = true := by
  induction ps with
  | nil => rfl
  | cons proto ps ih =>
    cases hg : net.getKDCs realm (proto = Protocol.tcp) with
    | none => simp [tryProtocols, hg, ih]
    | some ck =>
      obtain ⟨c, kdcs⟩ := ck
      by_cases hc : c < 1
      · simp [tryProtocols, hg, hc, ih]
      · have h1 := tryKdcs_closes lib net proto kerb h4 kdcs
        rcases htk : tryKdcs lib net proto kerb kdcs with ⟨r?, evs⟩
        rw [htk] at h1
        simp only at h1
        cases r? with
        | some r => simp [tryProtocols, hg, hc, htk, h1]
        | none =>
          simp only [tryProtocols, hg, hc, htk, if_neg hc]
          exact closeDiscipline_append evs _ false h1 ih

/-- C8: every connection forward dials is closed before the attempt moves
on — the event trace of a forward call is singly-open disciplined and its
dial and close counts agree (given a kerb message of at least 4 bytes, the
invariant decode establishes). -/
theorem forward_closes_connections (lib : KrbLib) (net : NetOracle)
    (limit : Int) (msg : KdcProxyMsg) (h4 : 4 ≤ msg.kerbMessage.length) :
    closeDiscipline false (forward lib net limit msg).2 = true ∧
    (forward lib net limit msg).2.countP isDialed =
      (forward lib net limit msg).2.countP isClosed := by
  have h1 := tryProtocols_closes lib net msg.targetDomain msg.kerbMessage h4
    (forwardProtocols msg.kerbMessage.length limit)
  have hdisc : closeDiscipline false (forward lib net limit msg).2 = true := by
    unfold forward
    rcases htp : tryProtocols lib net msg.targetDomain msg.kerbMessage
        (forwardProtocols msg.kerbMessage.length limit) with ⟨r?, evs⟩
    rw [htp] at h1
    simp only at h1
    cases r? <;> simpa using h1
  refine ⟨hdisc, ?_⟩
  have := closeDiscipline_count (forward lib net limit msg).2 false hdisc
  simpa using this

/-- Witness for C8 at a concrete message and network oracle. -/
theorem forward_closes_connections_witness :
    closeDiscipline false (forward libSample netNone 1232 sampleMsg).2 = true ∧
    (forward libSample netNone 1232 sampleMsg).2.countP isDialed =
      (forward libSample netNone 1232 sampleMsg).2.countP isClosed :=
  forward_closes_connections libSample netNone 1232 sampleMsg (by decide)

/-! Helper lemmas about the bytes forward puts on the wire. -/

/-- Every write in the inner loop carries the verbatim kerb message over TCP
and the 4-byte-stripped message over UDP. -/
theorem tryKdcs_wrote (lib : KrbLib) (net : NetOracle) (proto : Protocol)
    (kerb : Bytes) :
    ∀ (kdcs : List (Int × String)) (p : Protocol) (req : Bytes),
      ConnEvent.wrote p req ∈ (tryKdcs lib net proto kerb kdcs).2 →
      p = proto ∧
        req = (if proto = Protocol.udp then kerb.drop 4 else kerb) := by
  intro kdcs
  induction kdcs with
  | nil => intro p req hmem; simp [tryKdcs] at hmem
  | cons kdc rest ih =>
    intro p req hmem
    cases hd : net.dial proto kdc.2 with
    | none =>
      simp only [tryKdcs, hd] at hmem
      exact ih p req hmem
    | some conn =>
      cases hs : (if proto = Protocol.udp then goSliceFrom kerb 4
          else some kerb) with
      | none => simp [tryKdcs, hd, hs] at hmem
      | some req0 =>
        have hreq0 : req0 =
            if proto = Protocol.udp then kerb.drop 4 else kerb := by
          cases proto with
          | udp =>
            simp [goSliceFrom] at hs
            simpa using hs.2.symm
          | tcp => simp_all
        cases hw : conn.write req0 with
        | none =>
          simp [tryKdcs, hd, hs, hw] at hmem
          rcases hmem with ⟨hp, hr⟩ | hmem
          · exact ⟨hp, hr.trans hreq0⟩
          · exact ih p req hmem
        | some n =>
          by_cases hn : n = req0.length
          · cases hg : getresponseResult lib conn proto with
            | none =>
              simp [tryKdcs, hd, hs, hw, hn, getresponse, hg] at hmem
              rcases hmem with ⟨hp, hr⟩ | hmem
              · exact ⟨hp, hr.trans hreq0⟩
              · exact ih p req hmem
            | some resp =>
              simp [tryKdcs, hd, hs, hw, hn, getresponse, hg] at hmem
              obtain ⟨hp, hr⟩ := hmem
              exact ⟨hp, hr.trans hreq0⟩
          · simp [tryKdcs, hd, hs, hw, hn] at hmem
            rcases hmem with ⟨hp, hr⟩ | hmem
            · exact ⟨hp, hr.trans hreq0⟩
            · exact ih p req hmem

/-- Every write in the outer loop is correctly framed for its protocol. -/
theorem tryProtocols_wrote (lib : KrbLib) (net : NetOracle) (realm : String)
    (kerb : Bytes) :
    ∀ (ps : List Protocol) (p : Protocol) (req : Bytes),
      ConnEvent.wrote p req ∈ (tryProtocols lib net realm kerb ps).2 →
      req = (if p = Protocol.udp then kerb.drop 4 else kerb) := by
  intro ps
  induction ps with
  | nil => intro p req hmem; simp [tryProtocols] at hmem
  | cons proto ps ih =>
    intro p req hmem
    cases hg : net.getKDCs realm (proto = Protocol.tcp) with
    | none =>
      simp only [tryProtocols, hg] at hmem
      exact ih p req hmem
    | some ck =>
      obtain ⟨c, kdcs⟩ := ck
      by_cases hc : c < 1
      · simp only [tryProtocols, hg, if_pos hc] at hmem
        exact ih p req hmem
      · have hk := tryKdcs_wrote lib net proto kerb kdcs p req
        rcases htk : tryKdcs lib net proto kerb kdcs with ⟨r?, evs⟩
        rw [htk] at hk
        simp only at hk
        cases r? with
        | some r =>
          simp only [tryProtocols, hg, if_neg hc, htk] at hmem
          obtain ⟨hp, hr⟩ := hk hmem
          rw [hp]
          exact hr
        | none =>
          simp only [tryProtocols, hg, if_neg hc, htk, List.mem_append]
            at hmem
          rcases hmem with hmem | hmem
          · obtain ⟨hp, hr⟩ := hk hmem
            rw [hp]
            exact hr
          · exact ih p req hmem

/-- C5: transport framing — forward writes the kerb message verbatim over
TCP and with the leading 4 bytes stripped over UDP; getresponse reads a TCP
reply as a 4-byte header plus exactly the announced number of payload bytes
and returns header plus payload, reads a UDP reply as the whole datagram and
returns it behind a fresh 4-byte header, and every successful reply starts
with a 4-byte big-endian header equal to the number of bytes that follow. -/
theorem transport_framing (lib : KrbLib) (net : NetOracle) (limit : Int)
    (msg : KdcProxyMsg) (conn : ConnBehavior)
    (hwf : conn.ReadFullWF)
    (hudp : ∀ bs, conn.readAll = some bs → bs.length < 2 ^ 32) :
    (∀ p req, ConnEvent.wrote p req ∈ (forward lib net limit msg).2 →
        req = if p = Protocol.udp then msg.kerbMessage.drop 4
          else msg.kerbMessage)
    ∧ (∀ r, getresponseResult lib conn Protocol.tcp = some r →
        ∃ buf payload, conn.readFull 4 = some buf ∧
          UnmarshalKerbLength buf = some payload.length ∧
          conn.readFull payload.length = some payload ∧ r = buf ++ payload)
    ∧ (∀ r, getresponseResult lib conn Protocol.udp = some r →
        ∃ m, conn.readAll = some m ∧ validReply lib m = true ∧
          r = MarshalKerbLength m.length ++ m)
    ∧ (∀ p r, getresponseResult lib conn p = some r →
        4 ≤ r.length ∧
          UnmarshalKerbLength (r.take 4) = some (r.length - 4)) := by
  have hwrote : ∀ p req,
      ConnEvent.wrote p req ∈ (forward lib net limit msg).2 →
      req = if p = Protocol.udp then msg.kerbMessage.drop 4
        else msg.kerbMessage := by
    intro p req hmem
    have hpw := tryProtocols_wrote lib net msg.targetDomain msg.kerbMessage
      (forwardProtocols msg.kerbMessage.length limit) p req
    unfold forward at hmem
    rcases htp : tryProtocols lib net msg.targetDomain msg.kerbMessage
        (forwardProtocols msg.kerbMessage.length limit) with ⟨r?, evs⟩
    rw [htp] at hmem hpw
    simp only at hpw
    cases r? with
    | some r => exact hpw (by simpa using hmem)
    | none => exact hpw (by simpa using hmem)
  have htcp : ∀ r, getresponseResult lib conn Protocol.tcp = some r →
      ∃ buf payload, conn.readFull 4 = some buf ∧
        UnmarshalKerbLength buf = some payload.length ∧
        conn.readFull payload.length = some payload ∧ r = buf ++ payload := by
    intro r h
    unfold getresponseResult at h
    cases hb : conn.readFull 4 with
    | none => simp [hb] at h
    | some buf =>
      simp only [hb] at h
      cases hl : UnmarshalKerbLength buf with
      | none => simp [hl] at h
      | some len =>
        simp only [hl] at h
        cases hp : conn.readFull len with
        | none => simp [hp] at h
        | some payload =>
          simp only [hp, Option.some.injEq] at h
          subst h
          have hlen : payload.length = len := hwf len payload hp
          exact ⟨buf, payload, rfl, by rw [hlen]; exact hl,
            by rw [hlen]; exact hp, rfl⟩
  have hudpr : ∀ r, getresponseResult lib conn Protocol.udp = some r →
      ∃ m, conn.readAll = some m ∧ validReply lib m = true ∧
        r = MarshalKerbLength m.length ++ m := by
    intro r h
    unfold getresponseResult at h
    cases ha : conn.readAll with
    | none => simp [ha] at h
    | some m =>
      simp only [ha] at h
      cases hv : validReply lib m with
      | false => simp [hv] at h
      | true =>
        simp only [hv, if_true, Option.some.injEq] at h
        subst h
        exact ⟨m, rfl, hv, rfl⟩
  refine ⟨hwrote, htcp, hudpr, ?_⟩
  intro p r h
  cases p with
  | tcp =>
    obtain ⟨buf, payload, hb, hl, hp, hr⟩ := htcp r h
    have hbuflen : buf.length = 4 := hwf 4 buf hb
    have htake : r.take 4 = buf := by
      rw [hr, ← hbuflen, List.take_left]
    have hrlen : r.length = 4 + payload.length := by
      rw [hr]; simp [hbuflen]
    constructor
    · omega
    · rw [htake, hl, hrlen]
      congr 1
      omega
  | udp =>
    obtain ⟨m, ha, hv, hr⟩ := hudpr r h
    have hm32 : m.length < 2 ^ 32 := hudp m ha
    have hmlen : (MarshalKerbLength m.length).length = 4 := rfl
    have htake : r.take 4 = MarshalKerbLength m.length := by
      rw [hr, ← hmlen, List.take_left]
    have hrlen : r.length = 4 + m.length := by
      rw [hr]; simp [hmlen]
    constructor
    · omega
    · rw [htake, hrlen, unmarshal_marshal_kerbLength m.length hm32]
      congr 1
      omega

/-- Witness for C5 at concrete message, network and connection behaviour. -/
theorem transport_framing_witness :
    (∀ p req,
        ConnEvent.wrote p req ∈ (forward libSample netNone 1232 sampleMsg).2 →
        req = if p = Protocol.udp then sampleMsg.kerbMessage.drop 4
          else sampleMsg.kerbMessage)
    ∧ (∀ r, getresponseResult libSample connSample Protocol.tcp = some r →
        ∃ buf payload, connSample.readFull 4 = some buf ∧
          UnmarshalKerbLength buf = some payload.length ∧
          connSample.readFull payload.length = some payload ∧
          r = buf ++ payload)
    ∧ (∀ r, getresponseResult libSample connSample Protocol.udp = some r →
        ∃ m, connSample.readAll = some m ∧ validReply libSample m = true ∧
          r = MarshalKerbLength m.length ++ m)
    ∧ (∀ p r, getresponseResult libSample connSample p = some r →
        4 ≤ r.length ∧
          UnmarshalKerbLength (r.take 4) = some (r.length - 4)) :=
  transport_framing libSample netNone 1232 sampleMsg connSample
    (by
      intro n bs h
      simp only [connSample] at h
      split_ifs at h with h1 h2
      · simp only [Option.some.injEq] at h
        subst h; subst h1; rfl
      · simp only [Option.some.injEq] at h
        subst h; subst h2; rfl)
    (by
      intro bs h
      simp only [connSample, Option.some.injEq] at h
      subst h
      decide)

end Proxy
